import Mathlib

/-!
Shallow embedding of `src/app.py` (an Euler's-method calculator for the ODE
dy/dx = k·y) and proofs of the specification's claims about it.

The numeric core is embedded polymorphically over a linear ordered field with
a floor structure, so that the same definitions can be instantiated at `ℚ`
(where they are executable) and at `ℝ` (where the analytical solution
`y0 * exp (k*(x-x0))` lives).
-/

namespace EulerApp

variable {K : Type*} [LinearOrderedField K] [FloorRing K]

/-- Python's `int(q)` conversion: truncation toward zero. -/
def truncInt (q : K) : ℤ := if 0 ≤ q then ⌊q⌋ else ⌈q⌉

/-- One row of the DataFrame built by `eulers_method` in `src/app.py`
(`Step`, `x_n`, `y_n`, `f(x_n, y_n) = k*y_n`, `y_{n+1} = y_n + h*f(x_n, y_n)`). -/
structure StepRecord (K : Type*) where
  step : ℕ
  x_n : K
  y_n : K
  slope : K
  y_next : K
  deriving DecidableEq

/-- `num_steps = int((x_target - x0) / h)` from `src/app.py` line 23. -/
def num_steps (x0 x_target h : K) : ℤ := truncInt ((x_target - x0) / h)

/-- The `for i in range(num_steps)` loop of `eulers_method`
(`src/app.py` lines 34-48): given the current point `(x, y)` and a remaining
iteration count, returns the lists of appended x-values, appended y-values and
appended slopes (in order). -/
def eulerLoop (k h : K) : ℕ → K → K → List K × List K × List K
  | 0, _, _ => ([], [], [])
  | n + 1, x, y =>
    let slope := k * y
    let x_next := x + h
    let y_next := y + h * slope
    let r := eulerLoop k h n x_next y_next
    (x_next :: r.1, y_next :: r.2.1, slope :: r.2.2)

/-- `eulers_method(k, x0, y0, x_target, h)` from `src/app.py` lines 8-63:
returns the DataFrame rows, the list `x_values` and the list `y_values`. -/
def eulers_method (k x0 y0 x_target h : K) :
    List (StepRecord K) × List K × List K :=
  let n := (num_steps x0 x_target h).toNat
  let r := eulerLoop k h n x0 y0
  let x_values := x0 :: r.1
  let y_values := y0 :: r.2.1
  let slopes := r.2.2
  let df := (List.range n).map (fun i =>
    { step := i
      x_n := x_values.getD i 0
      y_n := y_values.getD i 0
      slope := slopes.getD i 0
      y_next := y_values.getD (i + 1) 0 })
  (df, x_values, y_values)

/-- The DataFrame component of `eulers_method`'s result. -/
def stepRecords (k x0 y0 x_target h : K) : List (StepRecord K) :=
  (eulers_method k x0 y0 x_target h).1

/-- The `x_values` component of `eulers_method`'s result. -/
def x_values (k x0 y0 x_target h : K) : List K :=
  (eulers_method k x0 y0 x_target h).2.1

/-- The `y_values` component of `eulers_method`'s result. -/
def y_values (k x0 y0 x_target h : K) : List K :=
  (eulers_method k x0 y0 x_target h).2.2

/-- `final_x = x_values[-1]` (`src/app.py` line 143). -/
def finalX (k x0 y0 x_target h : K) : K :=
  (x_values k x0 y0 x_target h).getLastD 0

/-- `final_y = y_values[-1]` (`src/app.py` line 143). -/
def finalY (k x0 y0 x_target h : K) : K :=
  (y_values k x0 y0 x_target h).getLastD 0

/-- The failure kinds named by the spec for `main`'s input validation
(`src/app.py` lines 126-138). -/
inductive ErrKind where
  | invalidStepSize
  | invalidRange
  | stepCountExceeded
  deriving DecidableEq

/-- The validation-then-compute path of `main` (`src/app.py` lines 126-143):
`h <= 0` is rejected first, then `x_target <= x0`, then
`(x_target - x0) / h > 10000`; only when all checks pass is
`eulers_method` run and its full result returned. -/
def runCompute (k x0 y0 x_target h : K) :
    Except ErrKind (List (StepRecord K) × List K × List K) :=
  if h ≤ 0 then .error .invalidStepSize
  else if x_target ≤ x0 then .error .invalidRange
  else if 10000 < (x_target - x0) / h then .error .stepCountExceeded
  else .ok (eulers_method k x0 y0 x_target h)

/-- `error = abs(analytical_y - final_y)` and
`relative_error = (error / abs(analytical_y)) * 100 if analytical_y != 0 else 0`
(`src/app.py` lines 246-247), as a function of the approximate and exact
values; returns the pair (absolute error, relative error in percent). -/
def errorMetrics (approx_y exact_y : K) : K × K :=
  let error := |exact_y - approx_y|
  let relative_error := if exact_y ≠ 0 then error / |exact_y| * 100 else 0
  (error, relative_error)

/-- `analytical_solution(k, x0, y0, x)` from `src/app.py` lines 65-70:
`y0 * e^(k*(x - x0))`. -/
noncomputable def analytical_solution (k x0 y0 x : ℝ) : ℝ :=
  y0 * Real.exp (k * (x - x0))

/-- The absolute error of the Euler approximation measured at `x_target`:
the first component of `errorMetrics` applied to the final Euler value and the
analytical value at `x_target`. -/
noncomputable def absErrorAt (k x0 y0 x_target h : ℝ) : ℝ :=
  (errorMetrics (finalY k x0 y0 x_target h) (analytical_solution k x0 y0 x_target)).1

/-! ### Closed forms for the Euler loop -/

/-- The Euler iterates in closed recursive form: `eulerY k h y0 i` is the
y-value after `i` steps. -/
def eulerY (k h y0 : K) : ℕ → K
  | 0 => y0
  | i + 1 => eulerY k h y0 i + h * (k * eulerY k h y0 i)

omit [FloorRing K] in
lemma eulerY_succ_base (k h y0 : K) (i : ℕ) :
    eulerY k h (y0 + h * (k * y0)) i = eulerY k h y0 (i + 1) := by
  induction i with
  | zero => simp [eulerY]
  | succ i ih => simp [eulerY, ih]

omit [FloorRing K] in
lemma eulerY_geom (k h y0 : K) (i : ℕ) :
    eulerY k h y0 i = y0 * (1 + h * k) ^ i := by
  induction i with
  | zero => simp [eulerY]
  | succ i ih =>
    rw [eulerY, ih, pow_succ]
    ring

omit [FloorRing K] in
lemma eulerLoop_eq (k h : K) (n : ℕ) (x y : K) :
    eulerLoop k h n x y =
      ((List.range n).map (fun i => x + (i + 1 : ℕ) * h),
       (List.range n).map (fun i => eulerY k h y (i + 1)),
       (List.range n).map (fun i => k * eulerY k h y i)) := by
  induction n generalizing x y with
  | zero => simp [eulerLoop]
  | succ n ih =>
    rw [eulerLoop]
    simp only [ih, List.range_succ_eq_map, List.map_cons, List.map_map,
      Prod.mk.injEq, List.cons.injEq]
    refine ⟨⟨?_, ?_⟩, ⟨?_, ?_⟩, ?_, ?_⟩
    · push_cast; ring
    · apply List.map_congr_left
      intro i _
      simp only [Function.comp_apply, Nat.succ_eq_add_one]
      push_cast; ring
    · simp [eulerY]
    · apply List.map_congr_left
      intro i _
      simp only [Function.comp_apply, Nat.succ_eq_add_one]
      rw [eulerY_succ_base]
    · simp [eulerY]
    · apply List.map_congr_left
      intro i _
      simp only [Function.comp_apply, Nat.succ_eq_add_one]
      rw [eulerY_succ_base]

/-- The number of loop iterations actually performed. -/
def stepCount (x0 x_target h : K) : ℕ := (num_steps x0 x_target h).toNat

lemma x_values_eq (k x0 y0 x_target h : K) :
    x_values k x0 y0 x_target h =
      (List.range (stepCount x0 x_target h + 1)).map (fun i => x0 + (i : ℕ) * h) := by
  unfold x_values eulers_method stepCount
  simp only [eulerLoop_eq, List.range_succ_eq_map, List.map_cons, List.map_map,
    List.cons.injEq]
  refine ⟨by push_cast; ring, ?_⟩
  apply List.map_congr_left
  intro i _
  simp only [Function.comp_apply, Nat.succ_eq_add_one]

lemma y_values_eq (k x0 y0 x_target h : K) :
    y_values k x0 y0 x_target h =
      (List.range (stepCount x0 x_target h + 1)).map (fun i => eulerY k h y0 i) := by
  unfold y_values eulers_method stepCount
  simp only [eulerLoop_eq, List.range_succ_eq_map, List.map_cons, List.map_map,
    List.cons.injEq]
  refine ⟨by simp [eulerY], ?_⟩
  apply List.map_congr_left
  intro i _
  simp only [Function.comp_apply, Nat.succ_eq_add_one]

lemma getD_map_range {α : Type*} (f : ℕ → α) (d : α) {m i : ℕ} (h : i < m) :
    ((List.range m).map f).getD i d = f i := by
  simp [List.getD_eq_getElem?_getD, List.getElem?_map, List.getElem?_range h]

lemma getLastD_map_range {α : Type*} (f : ℕ → α) (d : α) (m : ℕ) :
    ((List.range (m + 1)).map f).getLastD d = f m := by
  rw [List.range_succ, List.map_append]
  simp

lemma x_values_getD (k x0 y0 x_target h : K) {i : ℕ}
    (hi : i < stepCount x0 x_target h + 1) :
    (x_values k x0 y0 x_target h).getD i 0 = x0 + (i : ℕ) * h := by
  rw [x_values_eq, getD_map_range _ _ hi]

lemma y_values_getD (k x0 y0 x_target h : K) {i : ℕ}
    (hi : i < stepCount x0 x_target h + 1) :
    (y_values k x0 y0 x_target h).getD i 0 = eulerY k h y0 i := by
  rw [y_values_eq, getD_map_range _ _ hi]

lemma stepRecords_eq (k x0 y0 x_target h : K) :
    stepRecords k x0 y0 x_target h =
      (List.range (stepCount x0 x_target h)).map (fun i =>
        { step := i
          x_n := (x_values k x0 y0 x_target h).getD i 0
          y_n := (y_values k x0 y0 x_target h).getD i 0
          slope := k * eulerY k h y0 i
          y_next := (y_values k x0 y0 x_target h).getD (i + 1) 0 }) := by
  unfold stepRecords x_values y_values eulers_method stepCount
  apply List.map_congr_left
  intro i hi
  rw [List.mem_range] at hi
  simp only [eulerLoop_eq]
  congr 1
  exact getD_map_range _ _ hi

lemma stepRecords_length (k x0 y0 x_target h : K) :
    (stepRecords k x0 y0 x_target h).length = stepCount x0 x_target h := by
  rw [stepRecords_eq]; simp

lemma x_values_length (k x0 y0 x_target h : K) :
    (x_values k x0 y0 x_target h).length = stepCount x0 x_target h + 1 := by
  rw [x_values_eq]; simp

lemma y_values_length (k x0 y0 x_target h : K) :
    (y_values k x0 y0 x_target h).length = stepCount x0 x_target h + 1 := by
  rw [y_values_eq]; simp

lemma truncInt_of_nonneg {q : K} (h : 0 ≤ q) : truncInt q = ⌊q⌋ := if_pos h

lemma stepCount_eq_floor {x0 x_target h : K} (hh : 0 < h) (hx : x0 ≤ x_target) :
    (stepCount x0 x_target h : ℤ) = ⌊(x_target - x0) / h⌋ := by
  have hq : 0 ≤ (x_target - x0) / h := div_nonneg (by linarith) hh.le
  unfold stepCount num_steps
  rw [truncInt_of_nonneg hq, Int.toNat_of_nonneg (Int.floor_nonneg.mpr hq)]

lemma finalX_eq (k x0 y0 x_target h : K) :
    finalX k x0 y0 x_target h = x0 + (stepCount x0 x_target h : ℕ) * h := by
  unfold finalX
  rw [x_values_eq, getLastD_map_range]

lemma finalY_eq (k x0 y0 x_target h : K) :
    finalY k x0 y0 x_target h = eulerY k h y0 (stepCount x0 x_target h) := by
  unfold finalY
  rw [y_values_eq, getLastD_map_range]

/-! ### Claim theorems -/

/-- C1: for every valid input (`h > 0`, `x_target > x0`, step count within the
10000 cap), the trajectory produced by `eulers_method` starts at `(x0, y0)`,
and for every step `i` from 0 to `num_steps - 1` it satisfies the
forward-Euler recurrence: the recorded slope is `k * y_i`,
`x_{i+1} = x_i + h`, and `y_{i+1} = y_i + h * slope_i`; consequently the
x-coordinates are strictly increasing with constant spacing `h`. -/
theorem euler_recurrence (k x0 y0 x_target h : K)
    (hh : 0 < h) (hx : x0 < x_target)
    (hcap : (x_target - x0) / h ≤ 10000) :
    (x_values k x0 y0 x_target h).getD 0 0 = x0 ∧
    (y_values k x0 y0 x_target h).getD 0 0 = y0 ∧
    (∀ i, i < (stepRecords k x0 y0 x_target h).length →
      ((stepRecords k x0 y0 x_target h).getD i ⟨0, 0, 0, 0, 0⟩).slope
          = k * (y_values k x0 y0 x_target h).getD i 0 ∧
      (x_values k x0 y0 x_target h).getD (i + 1) 0
          = (x_values k x0 y0 x_target h).getD i 0 + h ∧
      (y_values k x0 y0 x_target h).getD (i + 1) 0
          = (y_values k x0 y0 x_target h).getD i 0
            + h * (k * (y_values k x0 y0 x_target h).getD i 0)) ∧
    (∀ i, i < (stepRecords k x0 y0 x_target h).length →
      (x_values k x0 y0 x_target h).getD i 0
          < (x_values k x0 y0 x_target h).getD (i + 1) 0) := by
  have hlen := stepRecords_length k x0 y0 x_target h
  refine ⟨?_, ?_, ?_, ?_⟩
  · rw [x_values_getD k x0 y0 x_target h (Nat.succ_pos _)]
    simp
  · rw [y_values_getD k x0 y0 x_target h (Nat.succ_pos _)]
    simp [eulerY]
  · intro i hi
    rw [hlen] at hi
    have hi1 : i < stepCount x0 x_target h + 1 := Nat.lt_succ_of_lt hi
    have hi2 : i + 1 < stepCount x0 x_target h + 1 := Nat.succ_lt_succ hi
    refine ⟨?_, ?_, ?_⟩
    · rw [stepRecords_eq, getD_map_range _ _ hi, y_values_getD k x0 y0 x_target h hi1]
    · rw [x_values_getD k x0 y0 x_target h hi1, x_values_getD k x0 y0 x_target h hi2]
      push_cast; ring
    · rw [y_values_getD k x0 y0 x_target h hi1, y_values_getD k x0 y0 x_target h hi2]
      rfl
  · intro i hi
    rw [hlen] at hi
    have hi1 : i < stepCount x0 x_target h + 1 := Nat.lt_succ_of_lt hi
    have hi2 : i + 1 < stepCount x0 x_target h + 1 := Nat.succ_lt_succ hi
    rw [x_values_getD k x0 y0 x_target h hi1, x_values_getD k x0 y0 x_target h hi2]
    push_cast
    nlinarith

/-- C1 witness: the recurrence theorem applied to the concrete rational input
`k = 2, x0 = 0, y0 = 3, x_target = 1, h = 1/2`. -/
theorem euler_recurrence_witness :
    (x_values (K := ℚ) 2 0 3 1 (1/2)).getD 0 0 = 0 ∧
    (y_values (K := ℚ) 2 0 3 1 (1/2)).getD 0 0 = 3 ∧
    (∀ i, i < (stepRecords (K := ℚ) 2 0 3 1 (1/2)).length →
      ((stepRecords (K := ℚ) 2 0 3 1 (1/2)).getD i ⟨0, 0, 0, 0, 0⟩).slope
          = 2 * (y_values (K := ℚ) 2 0 3 1 (1/2)).getD i 0 ∧
      (x_values (K := ℚ) 2 0 3 1 (1/2)).getD (i + 1) 0
          = (x_values (K := ℚ) 2 0 3 1 (1/2)).getD i 0 + 1/2 ∧
      (y_values (K := ℚ) 2 0 3 1 (1/2)).getD (i + 1) 0
          = (y_values (K := ℚ) 2 0 3 1 (1/2)).getD i 0
            + 1/2 * (2 * (y_values (K := ℚ) 2 0 3 1 (1/2)).getD i 0)) ∧
    (∀ i, i < (stepRecords (K := ℚ) 2 0 3 1 (1/2)).length →
      (x_values (K := ℚ) 2 0 3 1 (1/2)).getD i 0
          < (x_values (K := ℚ) 2 0 3 1 (1/2)).getD (i + 1) 0) :=
  euler_recurrence 2 0 3 1 (1/2) (by norm_num) (by norm_num) (by norm_num)

/-- C2: for every valid input, `eulers_method` returns a `StepRecord` list of
length exactly `num_steps` and x/y trajectories of length exactly
`num_steps + 1`, where `num_steps = ⌊(x_target - x0)/h⌋` (integer truncation
of the nonnegative real quotient coincides with the floor). -/
theorem euler_lengths (k x0 y0 x_target h : K)
    (hh : 0 < h) (hx : x0 < x_target)
    (hcap : (x_target - x0) / h ≤ 10000) :
    ((stepRecords k x0 y0 x_target h).length : ℤ) = ⌊(x_target - x0) / h⌋ ∧
    (x_values k x0 y0 x_target h).length
        = (stepRecords k x0 y0 x_target h).length + 1 ∧
    (y_values k x0 y0 x_target h).length
        = (stepRecords k x0 y0 x_target h).length + 1 := by
  refine ⟨?_, ?_, ?_⟩
  · rw [stepRecords_length]
    exact stepCount_eq_floor hh hx.le
  · rw [x_values_length, stepRecords_length]
  · rw [y_values_length, stepRecords_length]

/-- C2 witness: the length theorem applied to the concrete rational input
`k = 1, x0 = 0, y0 = 1, x_target = 2, h = 1/4` (8 steps). -/
theorem euler_lengths_witness :
    ((stepRecords (K := ℚ) 1 0 1 2 (1/4)).length : ℤ) = ⌊((2:ℚ) - 0) / (1/4)⌋ ∧
    (x_values (K := ℚ) 1 0 1 2 (1/4)).length
        = (stepRecords (K := ℚ) 1 0 1 2 (1/4)).length + 1 ∧
    (y_values (K := ℚ) 1 0 1 2 (1/4)).length
        = (stepRecords (K := ℚ) 1 0 1 2 (1/4)).length + 1 :=
  euler_lengths 1 0 1 2 (1/4) (by norm_num) (by norm_num) (by norm_num)

/-- C4: for every valid input, the final x value of the trajectory equals
`x0 + num_steps * h`; it never exceeds `x_target` and falls short of it by
strictly less than `h`, i.e.
`x0 + num_steps * h ≤ x_target < x0 + (num_steps + 1) * h`. -/
theorem euler_no_overshoot (k x0 y0 x_target h : K)
    (hh : 0 < h) (hx : x0 < x_target)
    (hcap : (x_target - x0) / h ≤ 10000) :
    finalX k x0 y0 x_target h
        = x0 + ((stepRecords k x0 y0 x_target h).length : K) * h ∧
    finalX k x0 y0 x_target h ≤ x_target ∧
    x_target - finalX k x0 y0 x_target h < h ∧
    x0 + ((stepRecords k x0 y0 x_target h).length : K) * h ≤ x_target ∧
    x_target < x0 + (((stepRecords k x0 y0 x_target h).length : K) + 1) * h := by
  have hq : (0:K) ≤ (x_target - x0) / h := div_nonneg (by linarith) hh.le
  have hfl : (stepCount x0 x_target h : ℤ) = ⌊(x_target - x0) / h⌋ :=
    stepCount_eq_floor hh hx.le
  have hcast : (stepCount x0 x_target h : K) = ((⌊(x_target - x0) / h⌋ : ℤ) : K) := by
    rw [← hfl]; push_cast; ring
  have hle : (stepCount x0 x_target h : K) * h ≤ x_target - x0 := by
    rw [hcast]
    calc ((⌊(x_target - x0) / h⌋ : ℤ) : K) * h
        ≤ (x_target - x0) / h * h := by
          have := Int.floor_le ((x_target - x0) / h)
          exact mul_le_mul_of_nonneg_right this hh.le
      _ = x_target - x0 := div_mul_cancel₀ _ hh.ne'
  have hlt : x_target - x0 < ((stepCount x0 x_target h : K) + 1) * h := by
    rw [hcast]
    have hfl1 := Int.lt_floor_add_one ((x_target - x0) / h)
    have := mul_lt_mul_of_pos_right hfl1 hh
    calc x_target - x0 = (x_target - x0) / h * h := (div_mul_cancel₀ _ hh.ne').symm
      _ < (((⌊(x_target - x0) / h⌋ : ℤ) : K) + 1) * h := by linarith
  have hfx := finalX_eq k x0 y0 x_target h
  have hsl : ((stepRecords k x0 y0 x_target h).length : K)
      = (stepCount x0 x_target h : K) := by
    rw [stepRecords_length]
  refine ⟨by rw [hfx, hsl], ?_, ?_, ?_, ?_⟩
  · rw [hfx]; linarith
  · rw [hfx]; linarith
  · rw [hsl]; linarith
  · rw [hsl]; linarith

/-- C4 witness: the no-overshoot theorem applied to the concrete rational
input `k = 1, x0 = 0, y0 = 1, x_target = 1, h = 3/10` (3 steps,
final x = 9/10 < 1). -/
theorem euler_no_overshoot_witness :
    finalX (K := ℚ) 1 0 1 1 (3/10)
        = 0 + ((stepRecords (K := ℚ) 1 0 1 1 (3/10)).length : ℚ) * (3/10) ∧
    finalX (K := ℚ) 1 0 1 1 (3/10) ≤ 1 ∧
    1 - finalX (K := ℚ) 1 0 1 1 (3/10) < 3/10 ∧
    0 + ((stepRecords (K := ℚ) 1 0 1 1 (3/10)).length : ℚ) * (3/10) ≤ 1 ∧
    1 < 0 + (((stepRecords (K := ℚ) 1 0 1 1 (3/10)).length : ℚ) + 1) * (3/10) :=
  euler_no_overshoot 1 0 1 1 (3/10) (by norm_num) (by norm_num) (by norm_num)

/-- C10: `eulers_method` performs no input validation of its own; called
directly with `h > 0` but `x_target ≤ x0` (truncated step count ≤ 0) it does
not fail but returns an empty `StepRecord` list and the single-point
trajectory `(x0, y0)`. -/
theorem eulers_method_degenerate (k x0 y0 x_target h : K)
    (hh : 0 < h) (hx : x_target ≤ x0) :
    eulers_method k x0 y0 x_target h = ([], [x0], [y0]) := by
  have hq : (x_target - x0) / h ≤ 0 :=
    div_nonpos_of_nonpos_of_nonneg (by linarith) hh.le
  have hn : (num_steps x0 x_target h).toNat = 0 := by
    apply Int.toNat_of_nonpos
    unfold num_steps truncInt
    split
    · exact Int.floor_nonpos hq
    · exact Int.ceil_le.mpr (by simpa using hq)
  unfold eulers_method
  rw [hn]
  simp [eulerLoop]

/-- C10 witness: the degenerate-input theorem at the concrete rational input
`k = 1, x0 = 5, y0 = 2, x_target = 3, h = 1/2`. -/
theorem eulers_method_degenerate_witness :
    eulers_method (K := ℚ) 1 5 2 3 (1/2) = ([], [5], [2]) :=
  eulers_method_degenerate 1 5 2 3 (1/2) (by norm_num) (by norm_num)

/-- C7: `errorMetrics` returns `absoluteError = |exact_y - approx_y|`, and a
relative error (in percent) of `absoluteError / |exact_y| * 100` when
`exact_y ≠ 0` and of `0` when `exact_y = 0`, so no division by zero is
performed. -/
theorem errorMetrics_spec (approx_y exact_y : K) :
    (errorMetrics approx_y exact_y).1 = |exact_y - approx_y| ∧
    (exact_y ≠ 0 →
      (errorMetrics approx_y exact_y).2 = |exact_y - approx_y| / |exact_y| * 100) ∧
    (exact_y = 0 → (errorMetrics approx_y exact_y).2 = 0) := by
  refine ⟨rfl, ?_, ?_⟩
  · intro hne
    simp [errorMetrics, hne]
  · intro hz
    simp [errorMetrics, hz]

/-- C7 witness: the error-metrics theorem evaluated at the rational inputs
`(approx, exact) = (3, 2)` (nonzero exact value) and `(3, 0)` (zero exact
value). -/
theorem errorMetrics_spec_witness :
    (errorMetrics (3:ℚ) 2).2 = |(2:ℚ) - 3| / |(2:ℚ)| * 100 ∧
    (errorMetrics (3:ℚ) 0).2 = 0 :=
  ⟨(errorMetrics_spec (3:ℚ) 2).2.1 (by norm_num),
   (errorMetrics_spec (3:ℚ) 0).2.2 rfl⟩

/-- C3 counterexample: the claim's "fails with `InvalidRange` exactly when
`x_target ≤ x0`" is false, because the `h ≤ 0` check fires first. At
`k = 1, x0 = 0, y0 = 1, x_target = 0, h = 0` we have `x_target ≤ x0`, yet the
computation fails with `InvalidStepSize`, not `InvalidRange`. -/
theorem runCompute_invalidRange_not_iff :
    ¬ (runCompute (K := ℚ) 1 0 1 0 0 = .error .invalidRange ↔ (0:ℚ) ≤ 0) := by
  intro hiff
  have h1 : runCompute (K := ℚ) 1 0 1 0 0 = .error .invalidStepSize := by
    unfold runCompute
    norm_num
  have h2 := hiff.mpr (by norm_num)
  rw [h1] at h2
  simp at h2

/-- C3 (amended): the checks are applied in order, so the computation fails
with `InvalidStepSize` exactly when `h ≤ 0`; with `InvalidRange` exactly when
`h > 0` and `x_target ≤ x0`; with `StepCountExceeded` exactly when `h > 0`,
`x_target > x0` and `(x_target - x0)/h > 10000`; the three kinds are
pairwise distinct; and a result is returned only when all checks pass, in
which case it is the full `eulers_method` output (no partial results on
failure). -/
theorem runCompute_errors (k x0 y0 x_target h : K) :
    (runCompute k x0 y0 x_target h = .error .invalidStepSize ↔ h ≤ 0) ∧
    (runCompute k x0 y0 x_target h = .error .invalidRange ↔
      0 < h ∧ x_target ≤ x0) ∧
    (runCompute k x0 y0 x_target h = .error .stepCountExceeded ↔
      0 < h ∧ x0 < x_target ∧ 10000 < (x_target - x0) / h) ∧
    (∀ r, runCompute k x0 y0 x_target h = .ok r →
      r = eulers_method k x0 y0 x_target h ∧
      0 < h ∧ x0 < x_target ∧ (x_target - x0) / h ≤ 10000) ∧
    (ErrKind.invalidStepSize ≠ ErrKind.invalidRange ∧
     ErrKind.invalidStepSize ≠ ErrKind.stepCountExceeded ∧
     ErrKind.invalidRange ≠ ErrKind.stepCountExceeded) := by
  unfold runCompute
  split_ifs with h1 h2 h3
  · exact ⟨iff_of_true rfl h1,
      iff_of_false (by simp) (fun hc => absurd h1 (not_le.mpr hc.1)),
      iff_of_false (by simp) (fun hc => absurd h1 (not_le.mpr hc.1)),
      fun r hr => by simp at hr,
      by decide⟩
  · exact ⟨iff_of_false (by simp) h1,
      iff_of_true rfl ⟨not_le.mp h1, h2⟩,
      iff_of_false (by simp) (fun hc => absurd h2 (not_le.mpr hc.2.1)),
      fun r hr => by simp at hr,
      by decide⟩
  · exact ⟨iff_of_false (by simp) h1,
      iff_of_false (by simp) (fun hc => h2 hc.2),
      iff_of_true rfl ⟨not_le.mp h1, not_le.mp h2, h3⟩,
      fun r hr => by simp at hr,
      by decide⟩
  · exact ⟨iff_of_false (by simp) h1,
      iff_of_false (by simp) (fun hc => h2 hc.2),
      iff_of_false (by simp) (fun hc => h3 hc.2.2),
      fun r hr => ⟨by simpa using hr.symm, not_le.mp h1, not_le.mp h2, not_lt.mp h3⟩,
      by decide⟩

/-- C3 witness: by the amended theorem, at `k = 1, x0 = 0, y0 = 1,
x_target = 0, h = 1/10` (positive step, empty range) the computation fails
with `InvalidRange`. -/
theorem runCompute_errors_witness :
    runCompute (K := ℚ) 1 0 1 0 (1/10) = .error .invalidRange :=
  ((runCompute_errors (K := ℚ) 1 0 1 0 (1/10)).2.1).mpr (by norm_num)

/-- C6: `analytical_solution k x0 y0 x` equals `y0 * exp (k * (x - x0))`, and
in particular it reproduces `y0` at `x = x0`. -/
theorem analytical_solution_spec (k x0 y0 x : ℝ) :
    analytical_solution k x0 y0 x = y0 * Real.exp (k * (x - x0)) ∧
    analytical_solution k x0 y0 x0 = y0 := by
  refine ⟨rfl, ?_⟩
  simp [analytical_solution]

lemma stepCount_ten : stepCount (0:ℝ) 1 (1/10) = 10 := by
  have h10 : (stepCount (0:ℝ) 1 (1/10) : ℤ) = 10 := by
    rw [stepCount_eq_floor (by norm_num) (by norm_num)]
    norm_num
  exact_mod_cast h10

/-- C8: for `k = 1, x0 = 0, y0 = 1, x_target = 1, h = 0.1`, `eulers_method`
performs exactly 10 steps, the final Euler value is `(1 + 0.1)^10 ≈ 2.593742`,
the analytical value at the final x is `e ≈ 2.718282`, the absolute error is
`≈ 0.124540` (within `10⁻⁶`), and the relative error is `≈ 4.58 %`
(within `0.005`). -/
theorem concrete_scenario :
    (stepRecords (K := ℝ) 1 0 1 1 (1/10)).length = 10 ∧
    finalY (K := ℝ) 1 0 1 1 (1/10) = (1 + 1/10) ^ 10 ∧
    |finalY (K := ℝ) 1 0 1 1 (1/10) - 2.593742| < 1/1000000 ∧
    |analytical_solution 1 0 1 (finalX (K := ℝ) 1 0 1 1 (1/10)) - 2.718282|
        < 1/1000000 ∧
    |(errorMetrics (finalY (K := ℝ) 1 0 1 1 (1/10))
        (analytical_solution 1 0 1 (finalX (K := ℝ) 1 0 1 1 (1/10)))).1
        - 0.124540| < 1/1000000 ∧
    |(errorMetrics (finalY (K := ℝ) 1 0 1 1 (1/10))
        (analytical_solution 1 0 1 (finalX (K := ℝ) 1 0 1 1 (1/10)))).2
        - 4.58| < 1/200 := by
  have hsc := stepCount_ten
  have he1 := Real.exp_one_gt_d9
  have he2 := Real.exp_one_lt_d9
  have hepos : (0:ℝ) < Real.exp 1 := Real.exp_pos 1
  have hfy : finalY (K := ℝ) 1 0 1 1 (1/10) = (1 + 1/10) ^ 10 := by
    rw [finalY_eq, hsc, eulerY_geom]
    norm_num
  have hfx : finalX (K := ℝ) 1 0 1 1 (1/10) = 1 := by
    rw [finalX_eq, hsc]
    norm_num
  have hana : analytical_solution 1 0 1 (finalX (K := ℝ) 1 0 1 1 (1/10))
      = Real.exp 1 := by
    rw [hfx]
    unfold analytical_solution
    norm_num
  have hpow : ((1:ℝ) + 1/10) ^ 10 = 25937424601/10000000000 := by norm_num
  have hplt : ((1:ℝ) + 1/10) ^ 10 < Real.exp 1 := by
    rw [hpow]; linarith
  have habs : (errorMetrics (finalY (K := ℝ) 1 0 1 1 (1/10))
      (analytical_solution 1 0 1 (finalX (K := ℝ) 1 0 1 1 (1/10)))).1
      = Real.exp 1 - ((1:ℝ) + 1/10) ^ 10 := by
    rw [hana, hfy]
    show |Real.exp 1 - ((1:ℝ) + 1/10) ^ 10| = _
    rw [abs_of_pos (by linarith)]
  have hrel : (errorMetrics (finalY (K := ℝ) 1 0 1 1 (1/10))
      (analytical_solution 1 0 1 (finalX (K := ℝ) 1 0 1 1 (1/10)))).2
      = (Real.exp 1 - ((1:ℝ) + 1/10) ^ 10) / Real.exp 1 * 100 := by
    rw [hana, hfy]
    show (errorMetrics (((1:ℝ) + 1/10) ^ 10) (Real.exp 1)).2 = _
    simp only [errorMetrics, ne_eq, hepos.ne', not_false_eq_true, if_true]
    rw [abs_of_pos (by linarith), abs_of_pos hepos]
  refine ⟨?_, hfy, ?_, ?_, ?_, ?_⟩
  · have := stepRecords_length (K := ℝ) 1 0 1 1 (1/10)
    rw [this, hsc]
  · rw [hfy, hpow, abs_lt]
    norm_num
  · rw [hana, abs_lt]
    constructor <;> [linarith; linarith]
  · rw [habs, hpow, abs_lt]
    constructor <;> [linarith; linarith]
  · rw [hrel, hpow, abs_lt]
    have h1 : (Real.exp 1 - 25937424601/10000000000) / Real.exp 1 * 100
        = (Real.exp 1 - 25937424601/10000000000) * 100 / Real.exp 1 := by ring
    rw [h1]
    constructor
    · rw [lt_sub_iff_add_lt, lt_div_iff₀ hepos]
      linarith
    · rw [sub_lt_iff_lt_add, div_lt_iff₀ hepos]
      linarith

omit [FloorRing K] in
lemma errorMetrics_fst (approx_y exact_y : K) :
    (errorMetrics approx_y exact_y).1 = |exact_y - approx_y| := rfl

lemma finalY_geom (k x0 y0 x_target h : K) :
    finalY k x0 y0 x_target h = y0 * (1 + h * k) ^ stepCount x0 x_target h := by
  rw [finalY_eq, eulerY_geom]

lemma absErrorAt_eq (k x0 y0 x_target h : ℝ) :
    absErrorAt k x0 y0 x_target h
      = |y0 * Real.exp (k * (x_target - x0))
          - y0 * (1 + h * k) ^ stepCount x0 x_target h| := by
  unfold absErrorAt
  rw [errorMetrics_fst, finalY_geom]
  rfl

lemma stepCount_cast (x0 x_target h : ℝ) (hh : 0 < h) (hx : x0 ≤ x_target) :
    ((stepCount x0 x_target h : ℕ) : ℝ)
      = (x_target - x0) / h - Int.fract ((x_target - x0) / h) := by
  have h1 : (stepCount x0 x_target h : ℤ) = ⌊(x_target - x0) / h⌋ :=
    stepCount_eq_floor hh hx
  have h2 : ((stepCount x0 x_target h : ℕ) : ℝ) = ((⌊(x_target - x0) / h⌋ : ℤ) : ℝ) := by
    exact_mod_cast congrArg (fun z : ℤ => (z : ℝ)) h1
  rw [h2, ← Int.self_sub_fract]

open Filter Topology in
lemma log_slope_tendsto (k : ℝ) :
    Tendsto (fun h : ℝ => Real.log (1 + h * k) / h) (𝓝[>] 0) (𝓝 k) := by
  have hderiv : HasDerivAt (fun x : ℝ => Real.log (1 + x * k)) k 0 := by
    have h1 : HasDerivAt (fun x : ℝ => 1 + x * k) k 0 := by
      simpa using ((hasDerivAt_id (0:ℝ)).mul_const k).const_add 1
    simpa using h1.log (by norm_num)
  have hslope := hasDerivAt_iff_tendsto_slope.mp hderiv
  have hmono : 𝓝[>] (0:ℝ) ≤ 𝓝[≠] (0:ℝ) :=
    nhdsWithin_mono _ (fun x hx => ne_of_gt hx)
  refine (hslope.mono_left hmono).congr ?_
  intro x
  simp [slope_def_field]

open Filter Topology in
lemma base_tendsto (k : ℝ) :
    Tendsto (fun h : ℝ => 1 + h * k) (𝓝[>] 0) (𝓝 1) := by
  have hc : Continuous (fun h : ℝ => 1 + h * k) := by continuity
  have htmp : Tendsto (fun h : ℝ => 1 + h * k) (𝓝[>] (0:ℝ)) (𝓝 (1 + 0 * k)) :=
    (hc.tendsto 0).mono_left nhdsWithin_le_nhds
  simpa using htmp

open Filter Topology in
lemma log_base_tendsto (k : ℝ) :
    Tendsto (fun h : ℝ => Real.log (1 + h * k)) (𝓝[>] 0) (𝓝 0) := by
  have hcont : ContinuousAt Real.log 1 := Real.continuousAt_log (by norm_num)
  have := hcont.tendsto.comp (base_tendsto k)
  simpa [Real.log_one] using this

open Filter Topology in
lemma euler_value_tendsto (k x0 y0 x_target : ℝ) (hx : x0 < x_target) :
    Tendsto (fun h : ℝ => y0 * (1 + h * k) ^ stepCount x0 x_target h)
      (𝓝[>] 0) (𝓝 (y0 * Real.exp (k * (x_target - x0)))) := by
  set L := x_target - x0 with hLdef
  have hLpos : 0 < L := sub_pos.mpr hx
  -- the fractional-part correction term vanishes in the limit
  have T2 : Tendsto (fun h : ℝ => Int.fract (L / h) * Real.log (1 + h * k))
      (𝓝[>] 0) (𝓝 0) := by
    have habs' : Tendsto (fun h : ℝ => |Real.log (1 + h * k)|) (𝓝[>] (0:ℝ)) (𝓝 0) := by
      simpa using (log_base_tendsto k).abs
    apply squeeze_zero_norm _ habs'
    intro h
    rw [Real.norm_eq_abs, abs_mul]
    have h1 : |Int.fract (L / h)| ≤ 1 := by
      rw [abs_of_nonneg (Int.fract_nonneg _)]
      exact (Int.fract_lt_one _).le
    calc |Int.fract (L / h)| * |Real.log (1 + h * k)|
        ≤ 1 * |Real.log (1 + h * k)| :=
          mul_le_mul_of_nonneg_right h1 (abs_nonneg _)
      _ = |Real.log (1 + h * k)| := one_mul _
  -- the main exponent term tends to k * L
  have T1 : Tendsto (fun h : ℝ => L / h * Real.log (1 + h * k))
      (𝓝[>] 0) (𝓝 (k * L)) := by
    have := (log_slope_tendsto k).const_mul L
    rw [mul_comm L k] at this
    refine this.congr ?_
    intro h
    ring
  have Texp : Tendsto (fun h : ℝ =>
      L / h * Real.log (1 + h * k) - Int.fract (L / h) * Real.log (1 + h * k))
      (𝓝[>] 0) (𝓝 (k * L)) := by
    have := T1.sub T2
    simpa using this
  have heqN : (fun h : ℝ => ((stepCount x0 x_target h : ℕ) : ℝ) * Real.log (1 + h * k))
      =ᶠ[𝓝[>] (0:ℝ)] (fun h : ℝ =>
        L / h * Real.log (1 + h * k) - Int.fract (L / h) * Real.log (1 + h * k)) := by
    filter_upwards [self_mem_nhdsWithin] with h hmem
    have hh : 0 < h := hmem
    rw [stepCount_cast x0 x_target h hh hx.le]
    ring
  have TexpN : Tendsto
      (fun h : ℝ => ((stepCount x0 x_target h : ℕ) : ℝ) * Real.log (1 + h * k))
      (𝓝[>] 0) (𝓝 (k * L)) := Texp.congr' heqN.symm
  have Tval : Tendsto (fun h : ℝ =>
      Real.exp (((stepCount x0 x_target h : ℕ) : ℝ) * Real.log (1 + h * k)))
      (𝓝[>] 0) (𝓝 (Real.exp (k * L))) :=
    (Real.continuous_exp.tendsto _).comp TexpN
  have hbase : ∀ᶠ h in 𝓝[>] (0:ℝ), 0 < 1 + h * k :=
    (base_tendsto k).eventually (eventually_gt_nhds (by norm_num : (0:ℝ) < 1))
  have heq2 : (fun h : ℝ =>
      Real.exp (((stepCount x0 x_target h : ℕ) : ℝ) * Real.log (1 + h * k)))
      =ᶠ[𝓝[>] (0:ℝ)] (fun h : ℝ => (1 + h * k) ^ stepCount x0 x_target h) := by
    filter_upwards [hbase] with h hb
    rw [Real.exp_nat_mul, Real.exp_log hb]
  have Tpow : Tendsto (fun h : ℝ => (1 + h * k) ^ stepCount x0 x_target h)
      (𝓝[>] 0) (𝓝 (Real.exp (k * L))) := Tval.congr' heq2
  exact Tpow.const_mul y0

lemma one_add_inv_pow_lt_exp_one (n : ℕ) (hn : 0 < n) :
    ((1:ℝ) + 1/n) ^ n < Real.exp 1 := by
  have hb : (1:ℝ) + 1/n < Real.exp (1/n) := by
    have h0 : (1/n : ℝ) ≠ 0 := by positivity
    have := Real.add_one_lt_exp h0
    linarith
  have hpos : (0:ℝ) ≤ 1 + 1/n := by positivity
  calc ((1:ℝ) + 1/n) ^ n < (Real.exp (1/n)) ^ n := pow_lt_pow_left₀ hb hpos (by omega)
    _ = Real.exp (n * (1/n)) := (Real.exp_nat_mul _ n).symm
    _ = Real.exp 1 := by
        congr 1
        field_simp

lemma stepCount_hundred : stepCount (0:ℝ) 1 (1/100) = 100 := by
  have h100 : (stepCount (0:ℝ) 1 (1/100) : ℤ) = 100 := by
    rw [stepCount_eq_floor (by norm_num) (by norm_num)]
    norm_num
  exact_mod_cast h100

lemma stepCount_thousand : stepCount (0:ℝ) 1 (1/1000) = 1000 := by
  have h1000 : (stepCount (0:ℝ) 1 (1/1000) : ℤ) = 1000 := by
    rw [stepCount_eq_floor (by norm_num) (by norm_num)]
    norm_num
  exact_mod_cast h1000

lemma absErrorAt_unit_inv (n : ℕ) (hn : 0 < n)
    (hsc : stepCount (0:ℝ) 1 (1/n) = n) :
    absErrorAt 1 0 1 1 (1/n) = Real.exp 1 - ((1:ℝ) + 1/n) ^ n := by
  rw [absErrorAt_eq, hsc]
  have hlt := one_add_inv_pow_lt_exp_one n hn
  rw [show (1:ℝ) * Real.exp (1 * (1 - 0)) = Real.exp 1 by norm_num,
    show (1:ℝ) * (1 + 1/n * 1) ^ n = ((1:ℝ) + 1/n) ^ n by norm_num]
  rw [abs_of_pos (by linarith)]

open Filter Topology in
/-- C9: for fixed `k, x0, y0, x_target` with `x_target > x0`, the absolute
error at `x_target` of the Euler approximation tends to 0 as the step size
`h` tends to 0 from the right; in particular, for
`k = 1, x0 = 0, y0 = 1, x_target = 1` the absolute error strictly decreases
across `h = 0.1`, `h = 0.01`, `h = 0.001`. -/
theorem euler_error_convergence :
    (∀ k x0 y0 x_target : ℝ, x0 < x_target →
      Tendsto (fun h : ℝ => absErrorAt k x0 y0 x_target h) (𝓝[>] 0) (𝓝 0)) ∧
    absErrorAt 1 0 1 1 (1/100) < absErrorAt 1 0 1 1 (1/10) ∧
    absErrorAt 1 0 1 1 (1/1000) < absErrorAt 1 0 1 1 (1/100) := by
  have e10 : absErrorAt 1 0 1 1 (1/10) = Real.exp 1 - ((1:ℝ) + 1/(10:ℕ)) ^ (10:ℕ) :=
    absErrorAt_unit_inv 10 (by norm_num) (by exact_mod_cast stepCount_ten)
  have e100 : absErrorAt 1 0 1 1 (1/100) = Real.exp 1 - ((1:ℝ) + 1/(100:ℕ)) ^ (100:ℕ) :=
    absErrorAt_unit_inv 100 (by norm_num) (by exact_mod_cast stepCount_hundred)
  have e1000 : absErrorAt 1 0 1 1 (1/1000)
      = Real.exp 1 - ((1:ℝ) + 1/(1000:ℕ)) ^ (1000:ℕ) :=
    absErrorAt_unit_inv 1000 (by norm_num) (by exact_mod_cast stepCount_thousand)
  refine ⟨?_, ?_, ?_⟩
  · intro k x0 y0 x_target hx
    have hval := euler_value_tendsto k x0 y0 x_target hx
    have hconst : Tendsto (fun _ : ℝ => y0 * Real.exp (k * (x_target - x0)))
        (𝓝[>] (0:ℝ)) (𝓝 (y0 * Real.exp (k * (x_target - x0)))) := tendsto_const_nhds
    have hsub := (hconst.sub hval).abs
    rw [sub_self, abs_zero] at hsub
    exact hsub.congr (fun h => (absErrorAt_eq k x0 y0 x_target h).symm)
  · rw [e10, e100]
    have : ((1:ℝ) + 1/(10:ℕ)) ^ (10:ℕ) < ((1:ℝ) + 1/(100:ℕ)) ^ (100:ℕ) := by
      norm_num
    linarith
  · rw [e100, e1000]
    have : ((1:ℝ) + 1/(100:ℕ)) ^ (100:ℕ) < ((1:ℝ) + 1/(1000:ℕ)) ^ (1000:ℕ) := by
      norm_num
    linarith

open Filter Topology in
/-- C9 witness: the convergence theorem applied at
`k = 1, x0 = 0, y0 = 1, x_target = 1`. -/
theorem euler_error_convergence_witness :
    Tendsto (fun h : ℝ => absErrorAt 1 0 1 1 h) (𝓝[>] 0) (𝓝 0) :=
  euler_error_convergence.1 1 0 1 1 (by norm_num)

end EulerApp
